import Mathlib

/-!
Verification of `vessel_segmentation` (cpp/vessel_segmentation.cpp) against its
natural-language specification.

The program is a command-line tool: `parse_args` splits flags from path
arguments, `main` loops over input/output path pairs calling `process_image`,
and `ExtractArteries` is the image pipeline (CLAHE contrast enhancement,
morphological filtering, median blur, mean threshold, small-blob removal).

Shallow embedding conventions:
* 8-bit pixels are `Nat` values (the library keeps them in 0..255);
* a single-channel image is `Img` (row-major `List Nat`), a 3-channel image is
  `Img3` (row-major `List (Nat × Nat × Nat)`);
* the file system is a `List String` of existing paths; image decoding and
  encoding are abstracted: whether `cv::imwrite` succeeds for a path is a
  parameter `wOk : String → Bool`;
* console output is a list of (stream, text) events;
* external vision-library primitives whose pixel-level behaviour the claims do
  not depend on (CLAHE, colour conversion, morphology) are fields of
  `ExtractArteries` constrained only by their documented interface; primitives
  the claims do depend on (mean threshold, median blur, contour removal) are
  modelled concretely.
-/

/-- A single-channel 8-bit image: row-major pixel list `data`, intended to have
`width * height` entries. -/
structure Img where
  width : Nat
  height : Nat
  data : List Nat
deriving DecidableEq, Repr

/-- Well-formedness: the pixel list has exactly `width * height` entries. -/
def Img.Wf (img : Img) : Prop := img.data.length = img.width * img.height

instance (img : Img) : Decidable img.Wf := by
  unfold Img.Wf; infer_instance

/-- Pixel access at column `x`, row `y` (out-of-range reads give 0). -/
def Img.px (img : Img) (x y : Nat) : Nat :=
  img.data.getD (y * img.width + x) 0

/-- A 3-channel 8-bit image, row-major list of channel triples. -/
structure Img3 where
  width : Nat
  height : Nat
  data : List (Nat × Nat × Nat)
deriving DecidableEq, Repr

/-- Well-formedness of a 3-channel image. -/
def Img3.Wf (img : Img3) : Prop := img.data.length = img.width * img.height

instance (img : Img3) : Decidable img.Wf := by
  unfold Img3.Wf; infer_instance

/-- Every pixel of the image is either 0 or 255 (a binary image). -/
def IsBinary (img : Img) : Prop := ∀ v ∈ img.data, v = 0 ∨ v = 255

instance (img : Img) : Decidable (IsBinary img) := by
  unfold IsBinary; infer_instance

namespace ExtractArteries

/-- Embeds `ExtractArteries::threshold`: `cv::mean` followed by
`cv::threshold(image, dst, mean[0], 255, THRESH_BINARY)`.  `THRESH_BINARY`
maps a pixel `p` to 255 exactly when `p > mean` (strict), else 0.  The real
mean is `sum / N`; the strict comparison `p > sum / N` is encoded exactly over
`Nat` as `sum < p * N`. -/
def threshold (img : Img) : Img :=
  ⟨img.width, img.height,
    img.data.map (fun p => if img.data.sum < p * img.data.length then 255 else 0)⟩

/-- Modelled from the spec: "compute the image's scalar mean intensity and
binarize: pixels at or above the mean become maximal value, others zero".
The at-or-above comparison `p ≥ sum / N` is encoded exactly over `Nat` as
`sum ≤ p * N`.  Compare with `ExtractArteries.threshold`, which embeds the
code. -/
def thresholdSpec (img : Img) : Img :=
  ⟨img.width, img.height,
    img.data.map (fun p => if img.data.sum ≤ p * img.data.length then 255 else 0)⟩

end ExtractArteries

/-! ## Command-line layer: `help`, `process_image`, `parse_args`, `main`
(wrapped in namespace `Cli`, since Lean reserves the bare name `main`) -/

namespace Cli

/-- Output stream selector for console writes. -/
inductive Ostream
  | stdout
  | stderr
deriving DecidableEq, Repr

/-- Console output: one entry per C++ output statement, in emission order. -/
abbrev Output := List (Ostream × String)

/-- The empty string, named so it can be passed where the C++ code relies on
the default argument `error_msg = ""`. -/
def emptyStr : String := ""

/-- The first line printed by `help`. -/
def usageHeader (program_name : String) : String :=
  program_name ++ " [-h] [-s] [<input_img> <output_img>]*"

/-- Embeds `help`: prints the usage text to standard output and, when
`error_msg` is nonempty, the error message to standard error. -/
def help (program_name error_msg : String) : Output :=
  [(Ostream.stdout, usageHeader program_name),
   (Ostream.stdout, "\t-h : print help\n"),
   (Ostream.stdout, "\t-s : show images. Press q, SPACE, or ESC to close window.\n"),
   (Ostream.stdout, "\t<input_img> input image that is read and processed.\n"),
   (Ostream.stdout, "\t<output_img> path where output image is written\n")]
  ++ (if error_msg.length ≠ 0 then [(Ostream.stderr, error_msg)] else [])

/-- Embeds the `Options` flag set (`std::set<Flag>` over `Flag::help` and
`Flag::show`): membership of each flag as a Boolean.  `hasShow` models
`Flag::show`, which cannot be a Lean field name. -/
structure Options where
  hasHelp : Bool
  hasShow : Bool
deriving DecidableEq, Repr

/-- The file system, as the list of existing paths; a successful write makes
the written path exist. -/
def insertFile (p : String) (fs : List String) : List String :=
  if p ∈ fs then fs else p :: fs

/-- Embeds `process_image`: if the input path does not exist, print the usage
text plus an error message and fail; otherwise read, extract and write
(decoding, the pixel pipeline and the 2-up composite affect neither the file
system nor control flow and are abstracted; `wOk output_path` tells whether
`cv::imwrite` creates the output file), then succeed exactly when the output
path exists after the write.  Returns (success flag, file system after,
console output). -/
def process_image (program_name : String) (wOk : String → Bool)
    (fs : List String) (input_path output_path : String) :
    Bool × List String × Output :=
  if input_path ∈ fs then
    if output_path ∈ (if wOk output_path then insertFile output_path fs else fs) then
      (true, (if wOk output_path then insertFile output_path fs else fs), [])
    else
      (false, (if wOk output_path then insertFile output_path fs else fs),
        [(Ostream.stderr, "Error: Failed to write " ++ output_path)])
  else
    (false, fs, help program_name (input_path ++ " input does not exist"))

/-- One step of the `parse_args` argument loop: `-h` and `-s` are inserted
into the flag set, any other argument is appended to `image_files`. -/
def parseStep (acc : Options × List String) (arg : String) : Options × List String :=
  if arg = "-h" then ({ acc.1 with hasHelp := true }, acc.2)
  else if arg = "-s" then ({ acc.1 with hasShow := true }, acc.2)
  else (acc.1, acc.2 ++ [arg])

/-- Embeds `parse_args`: scan `argv[1..]` for flags and path arguments; an odd
number of path arguments prints usage plus an error message and sets the
result code to -1.  Returns (options, image files, result code, program name,
console output produced while parsing). -/
def parse_args (argv : List String) : Options × List String × Int × String × Output :=
  if (argv.tail.foldl parseStep (⟨false, false⟩, [])).2.length % 2 = 1 then
    ((argv.tail.foldl parseStep (⟨false, false⟩, [])).1,
     (argv.tail.foldl parseStep (⟨false, false⟩, [])).2, -1, argv.headD emptyStr,
     help (argv.headD emptyStr)
       ("Wrong number of arguments, argc=" ++ toString argv.length))
  else
    ((argv.tail.foldl parseStep (⟨false, false⟩, [])).1,
     (argv.tail.foldl parseStep (⟨false, false⟩, [])).2, 0, argv.headD emptyStr, [])

/-- Embeds the pair loop of `main`: the `bool` returned by `process_image` is
stored into the `int result` (1 on success, 0 on failure) and the loop breaks
as soon as `result != 0` — that is, right after the first successful pair.  A
trailing unpaired path is unreachable from `main` (an odd path count sets the
result to -1 before the loop); `image_files.at(i+1)` would throw there. -/
def mainLoop (program_name : String) (wOk : String → Bool) :
    List String → List String → Int × List String × Output
  | fs, input :: output :: rest =>
    if (process_image program_name wOk fs input output).1 then
      (1, (process_image program_name wOk fs input output).2.1,
       (process_image program_name wOk fs input output).2.2)
    else
      ((mainLoop program_name wOk
          (process_image program_name wOk fs input output).2.1 rest).1,
       (mainLoop program_name wOk
          (process_image program_name wOk fs input output).2.1 rest).2.1,
       (process_image program_name wOk fs input output).2.2 ++
         (mainLoop program_name wOk
           (process_image program_name wOk fs input output).2.1 rest).2.2)
  | fs, _ => (0, fs, [])

/-- Embeds `main`: parse the arguments, print the plain usage text when `-h`
was given, and when the parse result code is 0 run the processing loop.
Returns (exit code, final file system, console output). -/
def main (argv : List String) (wOk : String → Bool) (fs : List String) :
    Int × List String × Output :=
  if (parse_args argv).2.2.1 = 0 then
    ((mainLoop (parse_args argv).2.2.2.1 wOk fs (parse_args argv).2.1).1,
     (mainLoop (parse_args argv).2.2.2.1 wOk fs (parse_args argv).2.1).2.1,
     (parse_args argv).2.2.2.2 ++
       (if (parse_args argv).1.hasHelp
        then help (parse_args argv).2.2.2.1 emptyStr else []) ++
       (mainLoop (parse_args argv).2.2.2.1 wOk fs (parse_args argv).2.1).2.2)
  else
    ((parse_args argv).2.2.1, fs,
     (parse_args argv).2.2.2.2 ++
       (if (parse_args argv).1.hasHelp
        then help (parse_args argv).2.2.2.1 emptyStr else []))

/-- The non-flag (path) arguments of an argument list. -/
def pathArgs (args : List String) : List String :=
  args.filter (fun a => a != "-h" && a != "-s")

end Cli

/-! ## Pixel-level primitives: median blur, connected components, blob removal -/

/-- Insert into an ascending sorted list. -/
def insertSorted (x : Nat) : List Nat → List Nat
  | [] => [x]
  | y :: ys => if x ≤ y then x :: y :: ys else y :: insertSorted x ys

/-- Insertion sort, ascending. -/
def sortNat (l : List Nat) : List Nat := l.foldr insertSorted []

/-- The median of a 9-element sample list: middle element after sorting. -/
def median9 (l : List Nat) : Nat := (sortNat l).getD 4 0

/-- Clamp an integer coordinate into `[0, n-1]` (`BORDER_REPLICATE`, the
border mode `cv::medianBlur` uses). -/
def clampCoord (n : Nat) (i : Int) : Nat :=
  if i < 0 then 0 else min i.toNat (n - 1)

/-- Pixel access at integer coordinates with replicated border. -/
def Img.pxR (img : Img) (x y : Int) : Nat :=
  img.px (clampCoord img.width x) (clampCoord img.height y)

/-- The nine offsets of a 3×3 neighbourhood. -/
def offsets3 : List (Int × Int) :=
  [(-1, -1), (0, -1), (1, -1), (-1, 0), (0, 0), (1, 0), (-1, 1), (0, 1), (1, 1)]

/-- The 3×3 neighbourhood sample of pixel `(x, y)`, border replicated. -/
def nbhd3 (img : Img) (x y : Nat) : List Nat :=
  offsets3.map (fun d => img.pxR ((x : Int) + d.1) ((y : Int) + d.2))

/-- Embeds `cv::medianBlur(src, dst, 3)`: every output pixel is the median of
the 3×3 neighbourhood of the corresponding input pixel. -/
def medianBlur (img : Img) : Img :=
  ⟨img.width, img.height,
    (List.range (img.width * img.height)).map
      (fun i => median9 (nbhd3 img (i % img.width) (i / img.width)))⟩

/-- One saturation step of reachability inside `U`: add every `q ∈ U` that is
`A`-adjacent to the current set. -/
def expand (U : Finset Nat) (A : Nat → Nat → Prop) [DecidableRel A]
    (s : Finset Nat) : Finset Nat :=
  s ∪ U.filter (fun q => ∃ p ∈ s, A p q)

/-- All positions reachable from `p` through `A`, by `U.card` saturation
steps (enough to reach the fixed point). -/
def reach (U : Finset Nat) (A : Nat → Nat → Prop) [DecidableRel A] (p : Nat) :
    Finset Nat :=
  (expand U A)^[U.card] {p}

/-- Scan positions in order and start a new component at every element of `U`
not already covered, accumulating covered positions. -/
def componentsAux (U : Finset Nat) (A : Nat → Nat → Prop) [DecidableRel A] :
    List Nat → Finset Nat → List (Finset Nat)
  | [], _ => []
  | i :: rest, covered =>
    if i ∈ U ∧ i ∉ covered then
      reach U A i :: componentsAux U A rest (covered ∪ reach U A i)
    else componentsAux U A rest covered

/-- The set of foreground (value 255) pixel positions of an image. -/
def foregroundSet (img : Img) : Finset Nat :=
  (Finset.range (img.width * img.height)).filter (fun i => img.data.getD i 0 = 255)

/-- 8-neighbourhood adjacency of distinct positions `p`, `q` on a `w`-wide
row-major grid (column and row each differ by at most 1). -/
def gridAdj (w : Nat) (p q : Nat) : Prop :=
  p ≠ q ∧ p % w - q % w ≤ 1 ∧ q % w - p % w ≤ 1 ∧ p / w - q / w ≤ 1 ∧ q / w - p / w ≤ 1

instance (w p q : Nat) : Decidable (gridAdj w p q) := by
  unfold gridAdj; infer_instance

/-- Adjacency of foreground pixels: both positions are foreground and
8-neighbours on the grid. -/
def adjPix (img : Img) (p q : Nat) : Prop :=
  p ∈ foregroundSet img ∧ q ∈ foregroundSet img ∧ gridAdj img.width p q

instance (img : Img) (p q : Nat) : Decidable (adjPix img p q) := by
  unfold adjPix; infer_instance

/-- Modelled from the spec: `cv::findContours(binary_image, contours,
RETR_TREE, CHAIN_APPROX_SIMPLE)` — "extract all connected-component contours".
The external library's contours are modelled as the 8-connected components of
the foreground, listed in scan order. -/
def components (img : Img) : List (Finset Nat) :=
  componentsAux (foregroundSet img) (adjPix img)
    (List.range (img.width * img.height)) ∅

/-- Modelled from the spec: `cv::contourArea` — "a scalar enclosed area used
only to decide blob rejection", modelled as the pixel count of the
component (the external library computes the polygonal area of the
boundary). -/
def contourArea (c : Finset Nat) : Nat := c.card

/-- The fixed area threshold `min_valid_area = 25.0` of `remove_blobs`. -/
def min_valid_area : Nat := 25

/-- The positions erased by `remove_blobs`: every component whose area is
below `min_valid_area`. -/
def zeroSet (img : Img) : Finset Nat :=
  ((components img).filter (fun c => contourArea c < min_valid_area)).foldr
    (· ∪ ·) ∅

/-- Zero the pixels at the listed positions (`i` is the index of the head). -/
def zeroOut (zs : Finset Nat) : Nat → List Nat → List Nat
  | _, [] => []
  | i, p :: rest => (if i ∈ zs then 0 else p) :: zeroOut zs (i + 1) rest

/-- Embeds `ExtractArteries::remove_blobs`: copy the input, find the contours,
and draw every contour of area below `min_valid_area` over the copy in black
(`cv::drawContours(result, cnt, -1, Scalar(0), -1)`, modelled as erasing the
component's pixels). -/
def ExtractArteries.remove_blobs (binary_image : Img) : Img :=
  ⟨binary_image.width, binary_image.height,
    zeroOut (zeroSet binary_image) 0 binary_image.data⟩

/-! ## 3-channel helpers and the `ExtractArteries` pipeline object -/

/-- Channel 0 of a 3-channel image (`cv::extractChannel(image, channel, 0)`;
also `plane(lab, 0)`, the head of `cv::split`). -/
def channel0 (img : Img3) : Img :=
  ⟨img.width, img.height, img.data.map (fun v => v.1)⟩

/-- Embeds `cv::merge` of three copies of a single channel. -/
def merge3 (img : Img) : Img3 :=
  ⟨img.width, img.height, img.data.map (fun v => (v, v, v))⟩

/-- Embeds `cv::subtract` — per-channel subtraction; `Nat` subtraction models the
8-bit saturation at 0. -/
def subtract3 (a b : Img3) : Img3 :=
  ⟨a.width, a.height,
    (a.data.zip b.data).map
      (fun v => (v.1.1 - v.2.1, v.1.2.1 - v.2.2.1, v.1.2.2 - v.2.2.2))⟩

/-- Embeds the `ExtractArteries` pipeline object.  `show_` and
`structuringElements_` mirror the data members (the constructor fills the
latter with the `morph_size` radii `[2, 5, 11]` of square structuring
elements).  The external vision-library collaborators are fields:
`claheApply` is `clahe_->apply` (clip limit 3), `cvtColorLab` is
`cv::cvtColor(..., COLOR_BGR2Lab)`, and `morphologyEx b img m` is
`cv::morphologyEx` with `MORPH_CLOSE` when `b` is true and `MORPH_OPEN`
otherwise, using the structuring element of radius `m`. -/
structure ExtractArteries where
  show_ : Bool
  structuringElements_ : List Nat
  claheApply : Img → Img
  cvtColorLab : Img3 → Img3
  morphologyEx : Bool → Img3 → Nat → Img3

namespace ExtractArteries

/-- Embeds `ExtractArteries::clahe` at its call sites (channel index 0, the
default): extract channel 0, then apply the contrast enhancer. -/
def clahe (ex : ExtractArteries) (image : Img3) : Img :=
  ex.claheApply (channel0 image)

/-- Embeds `ExtractArteries::color_filter`: convert BGR to Lab, take the
luminance plane, equalize it, and merge three copies of the result. -/
def color_filter (ex : ExtractArteries) (test_image : Img3) : Img3 :=
  merge3 (ex.claheApply (channel0 (ex.cvtColorLab test_image)))

/-- Embeds `ExtractArteries::erosion` — morphological opening (one iteration,
the default used at every call site). -/
def erosion (ex : ExtractArteries) (image : Img3) (se : Nat) : Img3 :=
  ex.morphologyEx false image se

/-- Embeds `ExtractArteries::dilation` — morphological closing. -/
def dilation (ex : ExtractArteries) (image : Img3) (se : Nat) : Img3 :=
  ex.morphologyEx true image se

/-- Embeds `ExtractArteries::large_arteries`: open then close with each
structuring element in turn, subtract the original from the result, and
equalize channel 0 of the difference. -/
def large_arteries (ex : ExtractArteries) (test_image : Img3) : Img :=
  ex.clahe
    (subtract3
      (ex.structuringElements_.foldl
        (fun close se => ex.dilation (ex.erosion close se) se) test_image)
      test_image)

/-- Embeds `ExtractArteries::extract`: `large_arteries` of `color_filter`,
median blur, threshold, blob removal, median blur (the interactive
`show_image` calls change no pixel data and are omitted). -/
def extract (ex : ExtractArteries) (test_image : Img3) : Img :=
  medianBlur (remove_blobs (threshold (medianBlur
    (ex.large_arteries (ex.color_filter test_image)))))

end ExtractArteries

/-- Foreground area: the number of maximal-value (255) pixels. -/
def foregroundArea (img : Img) : Nat := img.data.count 255

/-- Concrete input for the C5 witness. -/
def imgC5 : Img := ⟨2, 1, [10, 200]⟩

/-- Concrete input for the C7 witness. -/
def imgC7 : Img := ⟨2, 2, [255, 0, 0, 0]⟩

/-- Concrete pipeline object for the C6 witness: the external collaborators
are instantiated by dimension-preserving functions. -/
def exC6 : ExtractArteries :=
  ⟨false, [2, 5, 11], id, id, fun _ i _ => i⟩

/-- Concrete 3-channel input for the C6 witness. -/
def imgC6 : Img3 := ⟨2, 1, [(10, 20, 30), (200, 40, 60)]⟩

/-- Concrete instance data for the C3 witness. -/
def wOkC3 : String → Bool := fun _ => true

/-- The invariant on the covered set of `componentsAux`: it is closed under
reachability. -/
def CoveredClosed (U : Finset Nat) (A : Nat → Nat → Prop) (covered : Finset Nat) : Prop :=
  ∀ r q, r ∈ covered → r ∈ U → Relation.ReflTransGen A r q → q ∈ U →
    q ∈ covered

/-! ## Helper lemmas about `threshold` -/

lemma list_sum_map_mul (l : List Nat) (n : Nat) :
    (l.map (fun p => p * n)).sum = l.sum * n := by
  induction l with
  | nil => simp
  | cons a t ih => simp [ih, Nat.add_mul]

lemma list_length_mul_le_sum (l : List Nat) (b : Nat) (h : ∀ x ∈ l, b ≤ x) :
    l.length * b ≤ l.sum := by
  induction l with
  | nil => simp
  | cons a t ih =>
    have ha : b ≤ a := h a (by simp)
    have ht : t.length * b ≤ t.sum := ih (fun x hx => h x (by simp [hx]))
    simp only [List.length_cons, List.sum_cons, Nat.succ_mul]
    omega

/-- Some pixel of a nonempty list sits at or below the mean. -/
lemma exists_pixel_le_mean (l : List Nat) (hne : l ≠ []) :
    ∃ p ∈ l, p * l.length ≤ l.sum := by
  by_contra hall
  push_neg at hall
  have hbound : ∀ x ∈ l, l.sum + 1 ≤ x * l.length := fun x hx => hall x hx
  have hsum : l.length * (l.sum + 1) ≤ (l.map (fun p => p * l.length)).sum := by
    have := list_length_mul_le_sum (l.map (fun p => p * l.length)) (l.sum + 1)
      (by intro x hx
          rcases List.mem_map.mp hx with ⟨p, hp, rfl⟩
          exact hbound p hp)
    simpa using this
  rw [list_sum_map_mul] at hsum
  have hlen : l.length ≠ 0 := fun h => hne (List.length_eq_zero.mp h)
  nlinarith [Nat.pos_of_ne_zero hlen]

lemma threshold_data (img : Img) :
    (ExtractArteries.threshold img).data =
      img.data.map (fun p => if img.data.sum < p * img.data.length then 255 else 0) := rfl

/-- The threshold output is a binary image. -/
lemma threshold_isBinary (img : Img) : IsBinary (ExtractArteries.threshold img) := by
  intro v hv
  rw [threshold_data] at hv
  rcases List.mem_map.mp hv with ⟨p, _, rfl⟩
  by_cases h : img.data.sum < p * img.data.length <;> simp [h]

/-- A nonempty threshold output contains a zero pixel (the minimum of the
input is at or below the mean, and the comparison is strict). -/
lemma threshold_has_zero (img : Img) (hne : img.data ≠ []) :
    (0 : Nat) ∈ (ExtractArteries.threshold img).data := by
  rcases exists_pixel_le_mean img.data hne with ⟨p, hp, hle⟩
  rw [threshold_data]
  exact List.mem_map.mpr ⟨p, hp, by simp [Nat.not_lt.mpr hle]⟩

lemma list_sum_binary (l : List Nat) (h : ∀ x ∈ l, x = 0 ∨ x = 255) :
    l.sum = 255 * l.count 255 := by
  induction l with
  | nil => simp
  | cons a t ih =>
    have ht : t.sum = 255 * t.count 255 := ih (fun x hx => h x (by simp [hx]))
    rcases h a (by simp) with rfl | rfl <;>
      simp [List.count_cons, ht, Nat.mul_add, Nat.add_comm]

lemma list_map_self (l : List Nat) (g : Nat → Nat) (h : ∀ x ∈ l, g x = x) :
    l.map g = l := by
  induction l with
  | nil => rfl
  | cons a t ih =>
    simp only [List.map_cons, h a (by simp), ih (fun x hx => h x (by simp [hx]))]

/-! ## Claims C5 and C9: the threshold rule -/

/-- Claim C5, counterexample: on the constant image `[100]` every pixel equals
the mean, the code (strict `>` of `THRESH_BINARY`) maps it to 0, while the
spec's at-or-above rule would map it to 255. -/
theorem threshold_mean_pixel_cex :
    ExtractArteries.threshold ⟨1, 1, [100]⟩ = ⟨1, 1, [0]⟩ ∧
    ExtractArteries.thresholdSpec ⟨1, 1, [100]⟩ = ⟨1, 1, [255]⟩ ∧
    ExtractArteries.threshold ⟨1, 1, [100]⟩ ≠
      ExtractArteries.thresholdSpec ⟨1, 1, [100]⟩ := by decide

/-- Claim C5 (amended): `threshold` computes the image's scalar mean intensity
and maps every pixel strictly above the mean to the maximal value 255 and
every pixel at or below the mean to 0 (`p > sum / N` encoded exactly as
`sum < p * N`); width, height are preserved and the output is binary. -/
theorem threshold_maps_strictly_above_mean (img : Img) (x y : Nat)
    (hx : x < img.width) (hy : y < img.height) (hwf : img.Wf) :
    (ExtractArteries.threshold img).width = img.width ∧
    (ExtractArteries.threshold img).height = img.height ∧
    IsBinary (ExtractArteries.threshold img) ∧
    (ExtractArteries.threshold img).px x y =
      (if img.data.sum < img.px x y * img.data.length then 255 else 0) := by
  refine ⟨rfl, rfl, threshold_isBinary img, ?_⟩
  have hi : y * img.width + x < img.data.length := by
    rw [hwf]
    calc y * img.width + x < y * img.width + img.width := by omega
      _ = (y + 1) * img.width := by ring
      _ ≤ img.height * img.width := Nat.mul_le_mul_right _ hy
      _ = img.width * img.height := Nat.mul_comm _ _
  show (ExtractArteries.threshold img).data.getD (y * (ExtractArteries.threshold img).width + x) 0 = _
  have hw : (ExtractArteries.threshold img).width = img.width := rfl
  rw [hw, threshold_data,
    List.getD_eq_getElem _ _ (by simpa using hi), List.getElem_map]
  show (if img.data.sum < img.data[y * img.width + x] * img.data.length then 255 else 0) = _
  rw [show img.px x y = img.data[y * img.width + x] from List.getD_eq_getElem _ _ hi]

/-- Claim C5, witness: the amended theorem applied to the 2×1 image
`[10, 200]` at pixel (1, 0). -/
theorem threshold_maps_strictly_above_mean_witness :
    (1 < imgC5.width ∧ 0 < imgC5.height ∧ imgC5.Wf) ∧
    ((ExtractArteries.threshold imgC5).width = imgC5.width ∧
     (ExtractArteries.threshold imgC5).height = imgC5.height ∧
     IsBinary (ExtractArteries.threshold imgC5) ∧
     (ExtractArteries.threshold imgC5).px 1 0 =
       (if imgC5.data.sum < imgC5.px 1 0 * imgC5.data.length then 255 else 0)) :=
  ⟨⟨by decide, by decide, by decide⟩,
   threshold_maps_strictly_above_mean imgC5 1 0 (by decide) (by decide) (by decide)⟩

/-- Claim C9, counterexample: the all-maximal binary image `[255]` is not
reproduced by `threshold` — its mean is 255 and no pixel is strictly above
it, so the output is all zero. -/
theorem threshold_all255_cex :
    IsBinary ⟨1, 1, [255]⟩ ∧
    ExtractArteries.threshold ⟨1, 1, [255]⟩ ≠ ⟨1, 1, [255]⟩ := by decide

/-- Claim C9 (amended): `threshold` is idempotent on its own output —
`threshold (threshold x) = threshold x` for every image `x` (the
generalization to arbitrary already-binary images fails, see the
counterexample). -/
theorem threshold_idempotent (img : Img) :
    ExtractArteries.threshold (ExtractArteries.threshold img) =
      ExtractArteries.threshold img := by
  by_cases hne : img.data = []
  · simp [ExtractArteries.threshold, hne]
  · set t := ExtractArteries.threshold img with hteq
    have hbin := threshold_isBinary img
    have h0 : (0 : Nat) ∈ t.data := threshold_has_zero img hne
    have hsum : t.data.sum = 255 * t.data.count 255 := list_sum_binary _ hbin
    have hcount_lt : t.data.count 255 < t.data.length := by
      rcases Nat.lt_or_ge (t.data.count 255) t.data.length with h | h
      · exact h
      · have heq : t.data.count 255 = t.data.length :=
          Nat.le_antisymm (List.count_le_length _ _) h
        have h255 := List.count_eq_length.mp heq 0 h0
        omega
    have hfix : ∀ q ∈ t.data,
        (if t.data.sum < q * t.data.length then 255 else 0) = q := by
      intro q hq
      rcases hbin q hq with rfl | rfl
      · simp
      · have hlt : t.data.sum < 255 * t.data.length := by rw [hsum]; omega
        simp [hlt]
    have hdata :
        t.data.map (fun q => if t.data.sum < q * t.data.length then 255 else 0) =
          t.data := list_map_self _ _ hfix
    show ExtractArteries.threshold t = t
    unfold ExtractArteries.threshold
    rw [hdata]

/-! ## Claim C8: blob removal never increases the foreground area -/

lemma zeroOut_length (zs : Finset Nat) (i : Nat) (l : List Nat) :
    (zeroOut zs i l).length = l.length := by
  induction l generalizing i with
  | nil => rfl
  | cons a t ih => simp [zeroOut, ih]

lemma zeroOut_count_le (zs : Finset Nat) (i : Nat) (l : List Nat) :
    (zeroOut zs i l).count 255 ≤ l.count 255 := by
  induction l generalizing i with
  | nil => simp [zeroOut]
  | cons a t ih =>
    have ht := ih (i + 1)
    by_cases h : i ∈ zs
    · rw [show zeroOut zs i (a :: t) = 0 :: zeroOut zs (i + 1) t from by
        simp [zeroOut, h]]
      rw [List.count_cons_of_ne (by decide)]
      calc (zeroOut zs (i + 1) t).count 255 ≤ t.count 255 := ht
        _ ≤ (a :: t).count 255 := by
            by_cases ha : a = 255
            · subst ha; rw [List.count_cons_self]; omega
            · rw [List.count_cons_of_ne (fun hh => ha hh.symm)]
    · rw [show zeroOut zs i (a :: t) = a :: zeroOut zs (i + 1) t from by
        simp [zeroOut, h]]
      by_cases ha : a = 255
      · subst ha
        rw [List.count_cons_self, List.count_cons_self]
        omega
      · rw [List.count_cons_of_ne (fun hh => ha hh.symm),
          List.count_cons_of_ne (fun hh => ha hh.symm)]
        exact ht

lemma zeroOut_getD (zs : Finset Nat) (i j : Nat) (l : List Nat)
    (hj : j < l.length) :
    (zeroOut zs i l).getD j 0 = if (i + j) ∈ zs then 0 else l.getD j 0 := by
  induction l generalizing i j with
  | nil => simp at hj
  | cons a t ih =>
    cases j with
    | zero => simp [zeroOut]
    | succ j =>
      have hj2 : j < t.length := by simpa using hj
      have := ih (i + 1) j hj2
      simpa [zeroOut, Nat.add_assoc, Nat.add_comm 1 j] using this

/-- Helper: every pixel of the blob-removal output is either 0 or the
corresponding input pixel. -/
lemma zeroOut_mem (zs : Finset Nat) (i : Nat) (l : List Nat) :
    ∀ v ∈ zeroOut zs i l, v = 0 ∨ v ∈ l := by
  induction l generalizing i with
  | nil => simp [zeroOut]
  | cons a t ih =>
    intro v hv
    simp only [zeroOut, List.mem_cons] at hv
    rcases hv with hv | hv
    · by_cases h : i ∈ zs
      · simp [h] at hv; left; exact hv
      · simp [h] at hv; right; simp [hv]
    · rcases ih (i + 1) v hv with h0 | hm
      · left; exact h0
      · right; simp [hm]

/-- Claim C8: for every binary input image, the foreground area of the output
of `remove_blobs` is at most the foreground area of the input. -/
theorem remove_blobs_monotone_area (img : Img) (_hbin : IsBinary img) :
    foregroundArea (ExtractArteries.remove_blobs img) ≤ foregroundArea img :=
  zeroOut_count_le (zeroSet img) 0 img.data

/-- Claim C8, witness: applied to a 2×2 binary image with one foreground
pixel. -/
theorem remove_blobs_monotone_area_witness :
    IsBinary ⟨2, 2, [255, 0, 0, 0]⟩ ∧
    foregroundArea (ExtractArteries.remove_blobs ⟨2, 2, [255, 0, 0, 0]⟩) ≤
      foregroundArea ⟨2, 2, [255, 0, 0, 0]⟩ :=
  ⟨by decide, remove_blobs_monotone_area ⟨2, 2, [255, 0, 0, 0]⟩ (by decide)⟩

/-! ## Reachability saturation: the components are genuine connected
components (pairwise disjoint, closed under adjacency) -/

section Components

variable (U : Finset Nat) (A : Nat → Nat → Prop) [DecidableRel A]

lemma subset_expand (s : Finset Nat) : s ⊆ expand U A s :=
  Finset.subset_union_left

lemma expand_subset_of_subset (s : Finset Nat) (hs : s ⊆ U) :
    expand U A s ⊆ U :=
  Finset.union_subset hs (Finset.filter_subset _ _)

lemma iterate_expand_subset (n : Nat) (s : Finset Nat) (hs : s ⊆ U) :
    (expand U A)^[n] s ⊆ U := by
  induction n generalizing s with
  | zero => simpa
  | succ n ih =>
    rw [Function.iterate_succ_apply]
    exact ih _ (expand_subset_of_subset U A s hs)

lemma subset_iterate_expand (n : Nat) (s : Finset Nat) :
    s ⊆ (expand U A)^[n] s := by
  induction n with
  | zero => simp
  | succ n ih =>
    rw [Function.iterate_succ_apply']
    exact ih.trans (subset_expand U A _)

lemma reach_subset (p : Nat) (hp : p ∈ U) : reach U A p ⊆ U :=
  iterate_expand_subset U A _ _ (Finset.singleton_subset_iff.mpr hp)

lemma self_mem_reach (p : Nat) : p ∈ reach U A p :=
  subset_iterate_expand U A _ _ (Finset.mem_singleton_self p)

lemma iterate_expand_card (n : Nat) (s : Finset Nat)
    (h : ∀ k < n, expand U A ((expand U A)^[k] s) ≠ (expand U A)^[k] s) :
    s.card + n ≤ ((expand U A)^[n] s).card := by
  induction n with
  | zero => simp
  | succ n ih =>
    have h1 : s.card + n ≤ ((expand U A)^[n] s).card :=
      ih (fun k hk => h k (by omega))
    have hne := h n (by omega)
    have hss : (expand U A)^[n] s ⊂ expand U A ((expand U A)^[n] s) :=
      Finset.ssubset_iff_subset_ne.mpr
        ⟨subset_expand U A _, fun he => hne he.symm⟩
    have hcard := Finset.card_lt_card hss
    rw [Function.iterate_succ_apply']
    omega

/-- Saturation: `U.card` expansion steps always reach the fixed point. -/
lemma reach_fixpoint (p : Nat) (hp : p ∈ U) :
    expand U A (reach U A p) = reach U A p := by
  have hsub : ({p} : Finset Nat) ⊆ U := Finset.singleton_subset_iff.mpr hp
  have hex : ∃ k, k < U.card ∧
      expand U A ((expand U A)^[k] {p}) = (expand U A)^[k] {p} := by
    by_contra hall
    push_neg at hall
    have hgrow := iterate_expand_card U A U.card {p} (fun k hk => hall k hk)
    have hc : ((expand U A)^[U.card] {p}).card ≤ U.card :=
      Finset.card_le_card (iterate_expand_subset U A U.card {p} hsub)
    have h1 : ({p} : Finset Nat).card = 1 := Finset.card_singleton p
    omega
  rcases hex with ⟨k, hk, hfix⟩
  have hreach : reach U A p = (expand U A)^[k] {p} := by
    unfold reach
    rw [show U.card = (U.card - k) + k from (Nat.sub_add_cancel (le_of_lt hk)).symm,
      Function.iterate_add_apply]
    exact Function.iterate_fixed hfix _
  rw [hreach]
  exact hfix

lemma iterate_expand_sound (n : Nat) (p : Nat) :
    ∀ q ∈ (expand U A)^[n] {p}, Relation.ReflTransGen A p q := by
  induction n with
  | zero =>
    intro q hq
    rw [Function.iterate_zero_apply, Finset.mem_singleton] at hq
    subst hq
    exact Relation.ReflTransGen.refl
  | succ n ih =>
    intro q hq
    rw [Function.iterate_succ_apply'] at hq
    unfold expand at hq
    rcases Finset.mem_union.mp hq with h | h
    · exact ih q h
    · rcases Finset.mem_filter.mp h with ⟨-, r, hr, hA⟩
      exact Relation.ReflTransGen.tail (ih r hr) hA

lemma reach_sound (p q : Nat) (hq : q ∈ reach U A p) :
    Relation.ReflTransGen A p q :=
  iterate_expand_sound U A _ p q hq

lemma reach_complete (hdom : ∀ a b, A a b → b ∈ U) (p : Nat) (hp : p ∈ U) :
    ∀ q, Relation.ReflTransGen A p q → q ∈ reach U A p := by
  intro q h
  induction h with
  | refl => exact self_mem_reach U A p
  | tail hab hA ih =>
    rename_i b c
    have hc : c ∈ expand U A (reach U A p) :=
      Finset.mem_union_right _
        (Finset.mem_filter.mpr ⟨hdom _ _ hA, b, ih, hA⟩)
    rwa [reach_fixpoint U A p hp] at hc

/-- Membership in a reach set is exactly reflexive-transitive reachability. -/
lemma mem_reach_iff (hdom : ∀ a b, A a b → b ∈ U) (p : Nat) (hp : p ∈ U)
    (q : Nat) : q ∈ reach U A p ↔ Relation.ReflTransGen A p q :=
  ⟨reach_sound U A p q, reach_complete U A hdom p hp q⟩

lemma componentsAux_spec (hdom : ∀ a b, A a b → b ∈ U)
    (hsym : ∀ a b, A a b → A b a) :
    ∀ (l : List Nat) (covered : Finset Nat), CoveredClosed U A covered →
      List.Pairwise Disjoint (componentsAux U A l covered) ∧
      ∀ c ∈ componentsAux U A l covered,
        (∃ p, p ∈ U ∧ c = reach U A p) ∧ Disjoint c covered := by
  have hsymR : ∀ a b, Relation.ReflTransGen A a b → Relation.ReflTransGen A b a :=
    fun a b h => Relation.ReflTransGen.symmetric (fun x y hxy => hsym x y hxy) h
  intro l
  induction l with
  | nil => intro covered _; simp [componentsAux]
  | cons i rest ih =>
    intro covered hclosed
    by_cases hcase : i ∈ U ∧ i ∉ covered
    · have hiU : i ∈ U := hcase.1
      have hRsub : reach U A i ⊆ U := reach_subset U A i hiU
      -- the new covered set is still closed
      have hclosed2 : CoveredClosed U A (covered ∪ reach U A i) := by
        intro r q hr hrU hrq hqU
        rcases Finset.mem_union.mp hr with h | h
        · exact Finset.mem_union_left _ (hclosed r q h hrU hrq hqU)
        · have hir : Relation.ReflTransGen A i r := reach_sound U A i r h
          exact Finset.mem_union_right _
            (reach_complete U A hdom i hiU q (hir.trans hrq))
      have ihrest := ih (covered ∪ reach U A i) hclosed2
      -- the head component avoids the old covered set
      have hdisj : Disjoint (reach U A i) covered := by
        rw [Finset.disjoint_left]
        intro j hj hjc
        have hij : Relation.ReflTransGen A i j := reach_sound U A i j hj
        have hji : Relation.ReflTransGen A j i := hsymR _ _ hij
        exact hcase.2 (hclosed j i hjc (hRsub hj) hji hiU)
      have hunfold : componentsAux U A (i :: rest) covered =
          reach U A i :: componentsAux U A rest (covered ∪ reach U A i) := by
        simp [componentsAux, hcase]
      rw [hunfold]
      constructor
      · refine List.pairwise_cons.mpr ⟨?_, ihrest.1⟩
        intro c hc
        have := (ihrest.2 c hc).2
        rw [Finset.disjoint_union_right] at this
        exact this.2.symm
      · intro c hc
        rcases List.mem_cons.mp hc with rfl | hc
        · exact ⟨⟨i, hiU, rfl⟩, hdisj⟩
        · refine ⟨(ihrest.2 c hc).1, ?_⟩
          have := (ihrest.2 c hc).2
          rw [Finset.disjoint_union_right] at this
          exact this.1
    · have hunfold : componentsAux U A (i :: rest) covered =
          componentsAux U A rest covered := by
        simp [componentsAux, hcase]
      rw [hunfold]
      exact ih covered hclosed

end Components

/-! ## Claim C7: the blob-removal area rule -/

lemma gridAdj_symm (w p q : Nat) (h : gridAdj w p q) : gridAdj w q p :=
  ⟨fun he => h.1 he.symm, h.2.2.1, h.2.1, h.2.2.2.2, h.2.2.2.1⟩

lemma adjPix_symm (img : Img) (p q : Nat) (h : adjPix img p q) :
    adjPix img q p :=
  ⟨h.2.1, h.1, gridAdj_symm _ _ _ h.2.2⟩

lemma adjPix_mem (img : Img) (p q : Nat) (h : adjPix img p q) :
    q ∈ foregroundSet img := h.2.1

lemma components_spec (img : Img) :
    List.Pairwise Disjoint (components img) ∧
    ∀ c ∈ components img,
      (∃ p, p ∈ foregroundSet img ∧ c = reach (foregroundSet img) (adjPix img) p) ∧
      Disjoint c (∅ : Finset Nat) :=
  componentsAux_spec (foregroundSet img) (adjPix img) (adjPix_mem img)
    (adjPix_symm img) (List.range (img.width * img.height)) ∅
    (by intro r q hr; simp at hr)

lemma components_subset (img : Img) (c : Finset Nat)
    (hc : c ∈ components img) : c ⊆ foregroundSet img := by
  rcases ((components_spec img).2 c hc).1 with ⟨p, hp, rfl⟩
  exact reach_subset _ _ p hp

lemma components_unique (img : Img) (c1 c2 : Finset Nat)
    (h1 : c1 ∈ components img) (h2 : c2 ∈ components img) (x : Nat)
    (hx1 : x ∈ c1) (hx2 : x ∈ c2) : c1 = c2 := by
  by_contra hne
  have hdisj := (components_spec img).1.forall (fun a b h => h.symm) h1 h2 hne
  exact Finset.disjoint_left.mp hdisj hx1 hx2

lemma mem_foldr_union (L : List (Finset Nat)) (x : Nat) :
    x ∈ L.foldr (· ∪ ·) ∅ ↔ ∃ c ∈ L, x ∈ c := by
  induction L with
  | nil => simp
  | cons c t ih => simp [ih]

lemma mem_zeroSet_iff (img : Img) (x : Nat) :
    x ∈ zeroSet img ↔
      ∃ c ∈ components img, contourArea c < min_valid_area ∧ x ∈ c := by
  unfold zeroSet
  rw [mem_foldr_union]
  constructor
  · rintro ⟨c, hc, hx⟩
    rcases List.mem_filter.mp hc with ⟨hcm, hlt⟩
    exact ⟨c, hcm, by simpa using hlt, hx⟩
  · rintro ⟨c, hc, hlt, hx⟩
    exact ⟨c, List.mem_filter.mpr ⟨hc, by simpa using hlt⟩, hx⟩

lemma component_pos_lt (img : Img) (hwf : img.Wf) (c : Finset Nat)
    (hc : c ∈ components img) (i : Nat) (hi : i ∈ c) :
    i < img.data.length := by
  have hfg := components_subset img c hc hi
  unfold foregroundSet at hfg
  rcases Finset.mem_filter.mp hfg with ⟨hr, -⟩
  rw [hwf]
  exact Finset.mem_range.mp hr

/-- Claim C7: `remove_blobs` returns an image of the input's dimensions;
every extracted contour (connected component, spec-modelled) whose enclosed
area is below 25 is erased (filled with zero) and every contour whose area is
at or above 25 is left untouched. -/
theorem remove_blobs_area_rule (img : Img) (hwf : img.Wf) :
    (ExtractArteries.remove_blobs img).width = img.width ∧
    (ExtractArteries.remove_blobs img).height = img.height ∧
    (ExtractArteries.remove_blobs img).data.length = img.data.length ∧
    ∀ c ∈ components img,
      (contourArea c < min_valid_area →
        ∀ i ∈ c, (ExtractArteries.remove_blobs img).data.getD i 0 = 0) ∧
      (min_valid_area ≤ contourArea c →
        ∀ i ∈ c, (ExtractArteries.remove_blobs img).data.getD i 0 =
          img.data.getD i 0) := by
  refine ⟨rfl, rfl, zeroOut_length _ _ _, ?_⟩
  intro c hc
  constructor
  · intro hsmall i hi
    have hlen := component_pos_lt img hwf c hc i hi
    have hz : i ∈ zeroSet img := (mem_zeroSet_iff img i).mpr ⟨c, hc, hsmall, hi⟩
    show (zeroOut (zeroSet img) 0 img.data).getD i 0 = 0
    rw [zeroOut_getD _ 0 i _ hlen]
    simp [hz]
  · intro hbig i hi
    have hlen := component_pos_lt img hwf c hc i hi
    have hz : i ∉ zeroSet img := by
      intro hmem
      rcases (mem_zeroSet_iff img i).mp hmem with ⟨c2, hc2, hlt, hi2⟩
      have hce := components_unique img c2 c hc2 hc i hi2 hi
      rw [hce] at hlt
      omega
    show (zeroOut (zeroSet img) 0 img.data).getD i 0 = img.data.getD i 0
    rw [zeroOut_getD _ 0 i _ hlen]
    simp [hz]

/-- Claim C7, witness: the area rule applied to a well-formed 2×2 image. -/
theorem remove_blobs_area_rule_witness :
    imgC7.Wf ∧
    ((ExtractArteries.remove_blobs imgC7).width = imgC7.width ∧
     (ExtractArteries.remove_blobs imgC7).height = imgC7.height ∧
     (ExtractArteries.remove_blobs imgC7).data.length = imgC7.data.length ∧
     ∀ c ∈ components imgC7,
       (contourArea c < min_valid_area →
         ∀ i ∈ c, (ExtractArteries.remove_blobs imgC7).data.getD i 0 = 0) ∧
       (min_valid_area ≤ contourArea c →
         ∀ i ∈ c, (ExtractArteries.remove_blobs imgC7).data.getD i 0 =
           imgC7.data.getD i 0)) :=
  ⟨by decide, remove_blobs_area_rule imgC7 (by decide)⟩

/-! ## Claim C6: `extract` yields a binary single-channel image of the
input's dimensions -/

lemma mem_insertSorted (x : Nat) (l : List Nat) :
    ∀ v ∈ insertSorted x l, v = x ∨ v ∈ l := by
  induction l with
  | nil =>
    intro v hv
    simp [insertSorted] at hv
    left; exact hv
  | cons y ys ih =>
    intro v hv
    by_cases h : x ≤ y
    · simp only [insertSorted, if_pos h] at hv
      rcases List.mem_cons.mp hv with rfl | hv
      · left; rfl
      · right; exact hv
    · simp only [insertSorted, if_neg h] at hv
      rcases List.mem_cons.mp hv with rfl | hv
      · right; simp
      · rcases ih v hv with h0 | hm
        · left; exact h0
        · right; simp [hm]

lemma mem_sortNat (l : List Nat) : ∀ v ∈ sortNat l, v ∈ l := by
  induction l with
  | nil => intro v hv; simp [sortNat] at hv
  | cons a t ih =>
    intro v hv
    rcases mem_insertSorted a (sortNat t) v hv with rfl | hm
    · simp
    · simp [ih v hm]

lemma median9_mem (l : List Nat) : median9 l = 0 ∨ median9 l ∈ l := by
  unfold median9
  by_cases h : 4 < (sortNat l).length
  · right
    rw [List.getD_eq_getElem _ _ h]
    exact mem_sortNat l _ (List.getElem_mem h)
  · left
    exact List.getD_eq_default _ _ (by omega)

lemma px_mem (img : Img) (x y : Nat) :
    img.px x y = 0 ∨ img.px x y ∈ img.data := by
  unfold Img.px
  by_cases h : y * img.width + x < img.data.length
  · right
    rw [List.getD_eq_getElem _ _ h]
    exact List.getElem_mem h
  · left
    exact List.getD_eq_default _ _ (by omega)

lemma medianBlur_binary (img : Img) (h : IsBinary img) :
    IsBinary (medianBlur img) := by
  intro v hv
  unfold medianBlur at hv
  rcases List.mem_map.mp hv with ⟨i, -, rfl⟩
  rcases median9_mem (nbhd3 img (i % img.width) (i / img.width)) with h0 | hm
  · left; exact h0
  · rcases List.mem_map.mp hm with ⟨d, -, heq⟩
    rw [← heq] at hm ⊢
    rcases px_mem img _ _ with h0 | hd
    · left; exact h0
    · exact h _ hd

lemma medianBlur_dims (img : Img) :
    (medianBlur img).width = img.width ∧
    (medianBlur img).height = img.height ∧
    (medianBlur img).data.length = img.width * img.height :=
  ⟨rfl, rfl, by simp [medianBlur]⟩

lemma remove_blobs_binary (img : Img) (h : IsBinary img) :
    IsBinary (ExtractArteries.remove_blobs img) := by
  intro v hv
  rcases zeroOut_mem (zeroSet img) 0 img.data v hv with h0 | hm
  · left; exact h0
  · exact h v hm

lemma foldl_morph_dims (ex : ExtractArteries)
    (hmo : ∀ (b : Bool) (i : Img3) (se : Nat),
      (ex.morphologyEx b i se).width = i.width ∧
      (ex.morphologyEx b i se).height = i.height) :
    ∀ (ses : List Nat) (c : Img3),
      (ses.foldl (fun close se => ex.dilation (ex.erosion close se) se) c).width
        = c.width ∧
      (ses.foldl (fun close se => ex.dilation (ex.erosion close se) se) c).height
        = c.height := by
  intro ses
  induction ses with
  | nil => intro c; exact ⟨rfl, rfl⟩
  | cons s rest ih =>
    intro c
    have h1 := hmo false c s
    have h2 := hmo true (ex.morphologyEx false c s) s
    have h3 := ih (ex.dilation (ex.erosion c s) s)
    simp only [List.foldl_cons] at h3 ⊢
    unfold ExtractArteries.dilation ExtractArteries.erosion at h3 ⊢
    exact ⟨h3.1.trans (h2.1.trans h1.1), h3.2.trans (h2.2.trans h1.2)⟩

/-- Claim C6: for every 3-channel input image, `extract` returns a
single-channel image (the `Img` type) of the input's width and height whose
pixels are all 0 or 255, provided the external collaborators (CLAHE, the
Lab colour conversion, and morphology) preserve image dimensions as the
vision library documents. -/
theorem extract_binary_same_dims (ex : ExtractArteries) (t : Img3)
    (hcl : ∀ i : Img, (ex.claheApply i).width = i.width ∧
      (ex.claheApply i).height = i.height)
    (hlab : ∀ i : Img3, (ex.cvtColorLab i).width = i.width ∧
      (ex.cvtColorLab i).height = i.height)
    (hmo : ∀ (b : Bool) (i : Img3) (se : Nat),
      (ex.morphologyEx b i se).width = i.width ∧
      (ex.morphologyEx b i se).height = i.height) :
    (ex.extract t).width = t.width ∧
    (ex.extract t).height = t.height ∧
    (ex.extract t).data.length = t.width * t.height ∧
    IsBinary (ex.extract t) := by
  have hcf : (ex.color_filter t).width = t.width ∧
      (ex.color_filter t).height = t.height := by
    unfold ExtractArteries.color_filter
    have h1 := hlab t
    have h2 := hcl (channel0 (ex.cvtColorLab t))
    exact ⟨h2.1.trans h1.1, h2.2.trans h1.2⟩
  have hla : (ex.large_arteries (ex.color_filter t)).width = t.width ∧
      (ex.large_arteries (ex.color_filter t)).height = t.height := by
    unfold ExtractArteries.large_arteries ExtractArteries.clahe
    have hf := foldl_morph_dims ex hmo ex.structuringElements_ (ex.color_filter t)
    have h2 := hcl (channel0 (subtract3
      (ex.structuringElements_.foldl
        (fun close se => ex.dilation (ex.erosion close se) se)
        (ex.color_filter t)) (ex.color_filter t)))
    exact ⟨h2.1.trans (hf.1.trans hcf.1), h2.2.trans (hf.2.trans hcf.2)⟩
  -- name the successive pipeline stages
  have hbin1 : IsBinary (ExtractArteries.threshold
      (medianBlur (ex.large_arteries (ex.color_filter t)))) :=
    threshold_isBinary _
  have hbin2 : IsBinary (ExtractArteries.remove_blobs (ExtractArteries.threshold
      (medianBlur (ex.large_arteries (ex.color_filter t))))) :=
    remove_blobs_binary _ hbin1
  have hbin3 : IsBinary (ex.extract t) := medianBlur_binary _ hbin2
  have hw : (ex.extract t).width = t.width := by
    show (ExtractArteries.remove_blobs (ExtractArteries.threshold
      (medianBlur (ex.large_arteries (ex.color_filter t))))).width = t.width
    show (medianBlur (ex.large_arteries (ex.color_filter t))).width = t.width
    exact hla.1
  have hh : (ex.extract t).height = t.height := by
    show (ExtractArteries.remove_blobs (ExtractArteries.threshold
      (medianBlur (ex.large_arteries (ex.color_filter t))))).height = t.height
    show (medianBlur (ex.large_arteries (ex.color_filter t))).height = t.height
    exact hla.2
  refine ⟨hw, hh, ?_, hbin3⟩
  have hlen := (medianBlur_dims (ExtractArteries.remove_blobs
    (ExtractArteries.threshold
      (medianBlur (ex.large_arteries (ex.color_filter t)))))).2.2
  show (medianBlur (ExtractArteries.remove_blobs (ExtractArteries.threshold
    (medianBlur (ex.large_arteries (ex.color_filter t)))))).data.length =
      t.width * t.height
  rw [hlen,
    show (ExtractArteries.remove_blobs (ExtractArteries.threshold
      (medianBlur (ex.large_arteries (ex.color_filter t))))).width = t.width
      from hw,
    show (ExtractArteries.remove_blobs (ExtractArteries.threshold
      (medianBlur (ex.large_arteries (ex.color_filter t))))).height = t.height
      from hh]

/-- Claim C6, witness: the dimension hypotheses hold for `exC6` and the
theorem applies at a concrete 2×1 colour image. -/
theorem extract_binary_same_dims_witness :
    ((∀ i : Img, (exC6.claheApply i).width = i.width ∧
        (exC6.claheApply i).height = i.height) ∧
     (∀ i : Img3, (exC6.cvtColorLab i).width = i.width ∧
        (exC6.cvtColorLab i).height = i.height) ∧
     (∀ (b : Bool) (i : Img3) (se : Nat),
        (exC6.morphologyEx b i se).width = i.width ∧
        (exC6.morphologyEx b i se).height = i.height)) ∧
    ((exC6.extract imgC6).width = imgC6.width ∧
     (exC6.extract imgC6).height = imgC6.height ∧
     (exC6.extract imgC6).data.length = imgC6.width * imgC6.height ∧
     IsBinary (exC6.extract imgC6)) :=
  ⟨⟨fun _ => ⟨rfl, rfl⟩, fun _ => ⟨rfl, rfl⟩, fun _ _ _ => ⟨rfl, rfl⟩⟩,
   extract_binary_same_dims exC6 imgC6 (fun _ => ⟨rfl, rfl⟩)
     (fun _ => ⟨rfl, rfl⟩) (fun _ _ _ => ⟨rfl, rfl⟩)⟩

/-! ## Command-line claims: parsing lemmas -/

lemma parseStep_files (l : List String) (acc : Cli.Options × List String) :
    (l.foldl Cli.parseStep acc).2 = acc.2 ++ Cli.pathArgs l := by
  induction l generalizing acc with
  | nil => simp [Cli.pathArgs]
  | cons a t ih =>
    simp only [List.foldl_cons]
    by_cases h1 : a = "-h"
    · rw [show Cli.parseStep acc a = ({ acc.1 with hasHelp := true }, acc.2)
        from by simp [Cli.parseStep, h1]]
      rw [ih]
      simp [Cli.pathArgs, h1]
    · by_cases h2 : a = "-s"
      · rw [show Cli.parseStep acc a = ({ acc.1 with hasShow := true }, acc.2)
          from by simp [Cli.parseStep, h1, h2]]
        rw [ih]
        simp [Cli.pathArgs, h2]
      · rw [show Cli.parseStep acc a = (acc.1, acc.2 ++ [a])
          from by simp [Cli.parseStep, h1, h2]]
        rw [ih]
        simp [Cli.pathArgs, h1, h2, List.filter_cons]

lemma parseStep_hasHelp (l : List String) (acc : Cli.Options × List String) :
    (l.foldl Cli.parseStep acc).1.hasHelp = true ↔
      (acc.1.hasHelp = true ∨ "-h" ∈ l) := by
  induction l generalizing acc with
  | nil => simp
  | cons a t ih =>
    simp only [List.foldl_cons]
    by_cases h1 : a = "-h"
    · rw [show Cli.parseStep acc a = ({ acc.1 with hasHelp := true }, acc.2)
        from by simp [Cli.parseStep, h1]]
      rw [ih]
      simp [h1]
    · by_cases h2 : a = "-s"
      · rw [show Cli.parseStep acc a = ({ acc.1 with hasShow := true }, acc.2)
          from by simp [Cli.parseStep, h1, h2]]
        rw [ih]
        simp [show ("-h" : String) ≠ a from fun hh => h1 hh.symm]
      · rw [show Cli.parseStep acc a = (acc.1, acc.2 ++ [a])
          from by simp [Cli.parseStep, h1, h2]]
        rw [ih]
        simp [show ("-h" : String) ≠ a from fun hh => h1 hh.symm]

lemma parse_args_files (argv : List String) :
    (argv.tail.foldl Cli.parseStep (⟨false, false⟩, [])).2 =
      Cli.pathArgs argv.tail := by
  rw [parseStep_files]
  simp

lemma parse_args_odd (argv : List String)
    (hodd : (Cli.pathArgs argv.tail).length % 2 = 1) :
    Cli.parse_args argv =
      ((argv.tail.foldl Cli.parseStep (⟨false, false⟩, [])).1,
       Cli.pathArgs argv.tail, -1, argv.headD Cli.emptyStr,
       Cli.help (argv.headD Cli.emptyStr)
         ("Wrong number of arguments, argc=" ++ toString argv.length)) := by
  unfold Cli.parse_args
  rw [parse_args_files, if_pos hodd]

lemma parse_args_even (argv : List String)
    (heven : (Cli.pathArgs argv.tail).length % 2 ≠ 1) :
    Cli.parse_args argv =
      ((argv.tail.foldl Cli.parseStep (⟨false, false⟩, [])).1,
       Cli.pathArgs argv.tail, 0, argv.headD Cli.emptyStr, []) := by
  unfold Cli.parse_args
  rw [parse_args_files, if_neg heven]

lemma help_stderr_mem (pn msg s : String) :
    (Cli.Ostream.stderr, s) ∈ Cli.help pn msg ↔ msg.length ≠ 0 ∧ s = msg := by
  unfold Cli.help
  by_cases h : msg.length ≠ 0 <;> simp [h]

lemma help_stdout_head (pn msg : String) :
    (Cli.Ostream.stdout, Cli.usageHeader pn) ∈ Cli.help pn msg := by
  unfold Cli.help
  simp

lemma wrongMsg_length (t : String) :
    (("Wrong number of arguments, argc=" : String) ++ t).length ≠ 0 := by
  rw [String.length_append]
  have h32 : ("Wrong number of arguments, argc=" : String).length = 32 := rfl
  omega

/-! ## Claims C1 to C4 and C10: command-line behaviour -/

/-- Claim C1, behaviour of the code at the failing input (an invocation whose
single pair has a missing input file): the error is reported and the pair is
skipped, but `process_image` returns false, which `main` stores as 0, so the
loop continues and the process exits with code 0 — not non-zero. -/
theorem missing_input_exits_zero :
    (Cli.main ["prog", "in.png", "out.png"] (fun _ => true) []).1 = 0 ∧
    (Cli.Ostream.stderr, "in.png input does not exist") ∈
      (Cli.main ["prog", "in.png", "out.png"] (fun _ => true) []).2.2 ∧
    (Cli.main ["prog", "in.png", "out.png"] (fun _ => true) []).2.1 = [] := by
  decide

/-- Claim C2, behaviour of the code at the failing input: with two pairs
`(a.png, b.png)` and `(c.png, d.png)` whose inputs both exist and whose
writes both succeed, the first pair's success makes `process_image` return
true, `main` stores 1 into `result`, and `if (result != 0) break` ends the
loop: `b.png` is written, the process exits 1, and `d.png` is never
written. -/
theorem second_pair_skipped_after_success :
    Cli.main ["prog", "a.png", "b.png", "c.png", "d.png"] (fun _ => true)
        ["a.png", "c.png"] = (1, ["b.png", "a.png", "c.png"], []) ∧
    "d.png" ∉ (Cli.main ["prog", "a.png", "b.png", "c.png", "d.png"]
        (fun _ => true) ["a.png", "c.png"]).2.1 := by
  decide

/-- Claim C3: for an invocation with exactly one input/output pair whose
input exists and whose output exists after the write, `process_image`
returns true, `main` stores it into its integer `result`, and the process
exit status is 1. -/
theorem single_success_pair_returns_one (pn i o : String)
    (wOk : String → Bool) (fs : List String)
    (hi1 : i ≠ "-h") (hi2 : i ≠ "-s") (ho1 : o ≠ "-h") (ho2 : o ≠ "-s")
    (hex : i ∈ fs) (hw : wOk o = true ∨ o ∈ fs) :
    (Cli.process_image pn wOk fs i o).1 = true ∧
    (Cli.main [pn, i, o] wOk fs).1 = 1 := by
  have hfs2 : o ∈ (if wOk o then Cli.insertFile o fs else fs) := by
    rcases hw with h | h
    · rw [h]
      simp only [if_true]
      unfold Cli.insertFile
      by_cases hmem : o ∈ fs <;> simp [hmem]
    · by_cases hwo : wOk o <;> simp [hwo, Cli.insertFile, h]
  have hpi : (Cli.process_image pn wOk fs i o).1 = true := by
    unfold Cli.process_image
    rw [if_pos hex, if_pos hfs2]
  have hfold : ([i, o].foldl Cli.parseStep
      ((⟨false, false⟩, []) : Cli.Options × List String)) =
      (⟨false, false⟩, [i, o]) := by
    simp [Cli.parseStep, hi1, hi2, ho1, ho2]
  have hparse : Cli.parse_args [pn, i, o] = (⟨false, false⟩, [i, o], 0, pn, []) := by
    unfold Cli.parse_args
    simp only [List.tail_cons, hfold]
    norm_num
  refine ⟨hpi, ?_⟩
  unfold Cli.main
  rw [hparse]
  simp only [if_true]
  unfold Cli.mainLoop
  simp [hpi]

/-- Claim C3, witness: program `prog`, pair `in.png → out.png`, with `in.png`
present and every write succeeding. -/
theorem single_success_pair_returns_one_witness :
    (("in.png" : String) ≠ "-h" ∧ ("in.png" : String) ≠ "-s" ∧
     ("out.png" : String) ≠ "-h" ∧ ("out.png" : String) ≠ "-s" ∧
     "in.png" ∈ (["in.png"] : List String) ∧
     (wOkC3 "out.png" = true ∨ "out.png" ∈ (["in.png"] : List String))) ∧
    ((Cli.process_image "prog" wOkC3 ["in.png"] "in.png" "out.png").1 = true ∧
     (Cli.main ["prog", "in.png", "out.png"] wOkC3 ["in.png"]).1 = 1) :=
  ⟨⟨by decide, by decide, by decide, by decide, by decide, Or.inl rfl⟩,
   single_success_pair_returns_one "prog" "in.png" "out.png" wOkC3 ["in.png"]
     (by decide) (by decide) (by decide) (by decide) (by decide) (Or.inl rfl)⟩

/-- Claim C4, counterexample: with a single (odd) path argument the exit code
is non-zero and nothing is written, but the usage text goes to standard
output, not to standard error — only the error message goes to standard
error. -/
theorem odd_args_usage_on_stdout_cex :
    (Cli.main ["prog", "lone.png"] (fun _ => true) ["lone.png"]).1 = -1 ∧
    (Cli.main ["prog", "lone.png"] (fun _ => true) ["lone.png"]).2.1 =
      ["lone.png"] ∧
    (Cli.Ostream.stdout, Cli.usageHeader "prog") ∈
      (Cli.main ["prog", "lone.png"] (fun _ => true) ["lone.png"]).2.2 ∧
    (Cli.Ostream.stderr, Cli.usageHeader "prog") ∉
      (Cli.main ["prog", "lone.png"] (fun _ => true) ["lone.png"]).2.2 ∧
    (Cli.Ostream.stderr, "Wrong number of arguments, argc=2") ∈
      (Cli.main ["prog", "lone.png"] (fun _ => true) ["lone.png"]).2.2 := by
  decide

/-- Claim C4 (amended): an odd number of non-flag path arguments yields exit
code -1 (non-zero), leaves the file system unchanged (no output files), and
prints the usage text to standard output; the only standard-error output is
the wrong-number-of-arguments message. -/
theorem odd_args_usage_error (argv : List String) (wOk : String → Bool)
    (fs : List String) (hodd : (Cli.pathArgs argv.tail).length % 2 = 1) :
    (Cli.main argv wOk fs).1 = -1 ∧
    (Cli.main argv wOk fs).2.1 = fs ∧
    (Cli.Ostream.stdout, Cli.usageHeader (argv.headD Cli.emptyStr)) ∈
      (Cli.main argv wOk fs).2.2 ∧
    (Cli.Ostream.stderr,
      "Wrong number of arguments, argc=" ++ toString argv.length) ∈
      (Cli.main argv wOk fs).2.2 ∧
    ∀ s, (Cli.Ostream.stderr, s) ∈ (Cli.main argv wOk fs).2.2 →
      s = "Wrong number of arguments, argc=" ++ toString argv.length := by
  have hp := parse_args_odd argv hodd
  have hmain : Cli.main argv wOk fs =
      (-1, fs,
        Cli.help (argv.headD Cli.emptyStr)
          ("Wrong number of arguments, argc=" ++ toString argv.length) ++
        (if (argv.tail.foldl Cli.parseStep (⟨false, false⟩, [])).1.hasHelp
         then Cli.help (argv.headD Cli.emptyStr) Cli.emptyStr else [])) := by
    unfold Cli.main
    rw [hp]
    norm_num
  rw [hmain]
  refine ⟨rfl, rfl, List.mem_append_left _ (help_stdout_head _ _),
    List.mem_append_left _ ((help_stderr_mem _ _ _).mpr
      ⟨wrongMsg_length _, rfl⟩), ?_⟩
  intro s hs
  rcases List.mem_append.mp hs with h | h
  · exact ((help_stderr_mem _ _ _).mp h).2
  · by_cases hh : (argv.tail.foldl Cli.parseStep
        ((⟨false, false⟩, []) : Cli.Options × List String)).1.hasHelp
    · rw [if_pos hh] at h
      have hcontr := ((help_stderr_mem _ _ _).mp h).1
      exact absurd rfl hcontr
    · rw [if_neg hh] at h
      cases h

/-- Claim C4, witness: the amended theorem applied to a one-path invocation
over a nonempty file system. -/
theorem odd_args_usage_error_witness :
    (Cli.pathArgs (["prog", "lone.png"] : List String).tail).length % 2 = 1 ∧
    ((Cli.main ["prog", "lone.png"] wOkC3 ["x.png"]).1 = -1 ∧
     (Cli.main ["prog", "lone.png"] wOkC3 ["x.png"]).2.1 = ["x.png"] ∧
     (Cli.Ostream.stdout,
       Cli.usageHeader ((["prog", "lone.png"] : List String).headD Cli.emptyStr)) ∈
       (Cli.main ["prog", "lone.png"] wOkC3 ["x.png"]).2.2 ∧
     (Cli.Ostream.stderr, "Wrong number of arguments, argc=" ++
       toString (["prog", "lone.png"] : List String).length) ∈
       (Cli.main ["prog", "lone.png"] wOkC3 ["x.png"]).2.2 ∧
     ∀ s, (Cli.Ostream.stderr, s) ∈
         (Cli.main ["prog", "lone.png"] wOkC3 ["x.png"]).2.2 →
       s = "Wrong number of arguments, argc=" ++
         toString (["prog", "lone.png"] : List String).length) :=
  ⟨by decide, odd_args_usage_error ["prog", "lone.png"] wOkC3 ["x.png"] (by decide)⟩

/-- Claim C10: `-h` prints the usage text but does not end the run — with an
even path list the parse result stays 0 and `main` still runs the processing
loop on all the path pairs, its output following the help text. -/
theorem help_flag_still_processes (argv : List String) (wOk : String → Bool)
    (fs : List String) (hmem : "-h" ∈ argv.tail)
    (heven : (Cli.pathArgs argv.tail).length % 2 = 0) :
    Cli.main argv wOk fs =
      ((Cli.mainLoop (argv.headD Cli.emptyStr) wOk fs
          (Cli.pathArgs argv.tail)).1,
       (Cli.mainLoop (argv.headD Cli.emptyStr) wOk fs
          (Cli.pathArgs argv.tail)).2.1,
       Cli.help (argv.headD Cli.emptyStr) Cli.emptyStr ++
         (Cli.mainLoop (argv.headD Cli.emptyStr) wOk fs
           (Cli.pathArgs argv.tail)).2.2) := by
  have hp := parse_args_even argv (by omega)
  have hh : (argv.tail.foldl Cli.parseStep
      ((⟨false, false⟩, []) : Cli.Options × List String)).1.hasHelp = true :=
    (parseStep_hasHelp _ _).mpr (Or.inr hmem)
  unfold Cli.main
  rw [hp]
  norm_num [hh]

/-- Claim C10, witness: `prog -h in.png out.png` with `in.png` present still
writes `out.png` after printing the help text. -/
theorem help_flag_still_processes_witness :
    ("-h" ∈ (["prog", "-h", "in.png", "out.png"] : List String).tail ∧
     (Cli.pathArgs (["prog", "-h", "in.png", "out.png"] : List String).tail).length
       % 2 = 0) ∧
    Cli.main ["prog", "-h", "in.png", "out.png"] wOkC3 ["in.png"] =
      ((Cli.mainLoop ((["prog", "-h", "in.png", "out.png"] : List String).headD
          Cli.emptyStr) wOkC3 ["in.png"]
          (Cli.pathArgs (["prog", "-h", "in.png", "out.png"] : List String).tail)).1,
       (Cli.mainLoop ((["prog", "-h", "in.png", "out.png"] : List String).headD
          Cli.emptyStr) wOkC3 ["in.png"]
          (Cli.pathArgs (["prog", "-h", "in.png", "out.png"] : List String).tail)).2.1,
       Cli.help ((["prog", "-h", "in.png", "out.png"] : List String).headD
           Cli.emptyStr) Cli.emptyStr ++
         (Cli.mainLoop ((["prog", "-h", "in.png", "out.png"] : List String).headD
           Cli.emptyStr) wOkC3 ["in.png"]
           (Cli.pathArgs (["prog", "-h", "in.png", "out.png"] : List String).tail)).2.2) :=
  ⟨⟨by decide, by decide⟩,
   help_flag_still_processes ["prog", "-h", "in.png", "out.png"] wOkC3
     ["in.png"] (by decide) (by decide)⟩
